import Mathlib

/-!
Connection hub of `web_tools`: a shallow embedding.

Two programs are embedded, each in its own namespace:

* `Backend`  : `src/backend/main.go`   (the primary variant),
* `CopyBack` : `src/copy_back/main.go` (the secondary variant).

A `*Client` pointer is a `ClientId`; the Go heap is a total function from
`ClientId` to the client record, where a client that has not been created yet
is in the state `handleWebSocket` creates it in (empty `KeyHash`, empty open
`Send` channel).  A buffered Go channel is a `Chan`: its buffered values and
whether it has been closed.  Sending on, or closing, a closed channel is a
run-time panic in Go; it is an `Except.error` here.  Every function below is
one sequential piece of the source (a method body, or one `case` of the
`select` in `Hub.run`).
-/

set_option linter.dupNamespace false
set_option maxRecDepth 100000

namespace WebTools

/-- A `*Client` pointer. -/
abbrev ClientId := Nat

/-- A serialized frame: the `[]byte` value carried by a `Send` channel. -/
abbrev Frame := String

/-- The two run-time panics of Go channels. -/
inductive Fault where
  | sendOnClosedChannel
  | closeOfClosedChannel
deriving DecidableEq, Repr

/-- Capacity of every `Send` channel: `make(chan []byte, 256)` in `handleWebSocket`. -/
def sendCap : Nat := 256

/-- A buffered channel of frames: the queued values (head is the oldest) and the closed flag. -/
structure Chan where
  buf : List Frame
  closed : Bool
deriving DecidableEq, Repr

/-- The channel `make(chan []byte, 256)` returns. -/
def Chan.make : Chan := { buf := [], closed := false }

/-- Outcome of `select { case ch <- x: ... default: ... }`. -/
inductive SendResult where
  | sent (ch : Chan)
  | wouldBlock
deriving DecidableEq, Repr

/-- Non-blocking send `select { case ch <- x: default: }`: panics on a closed channel,
enqueues at the tail when the buffer has room, takes the `default` branch otherwise. -/
def Chan.trySend (ch : Chan) (x : Frame) : Except Fault SendResult :=
  if ch.closed then .error .sendOnClosedChannel
  else if ch.buf.length < sendCap then .ok (.sent { ch with buf := ch.buf ++ [x] })
  else .ok .wouldBlock

/-- The builtin `close(ch)`: panics when the channel is already closed. -/
def Chan.close (ch : Chan) : Except Fault Chan :=
  if ch.closed then .error .closeOfClosedChannel
  else .ok { ch with closed := true }

/-- An outbox accepts one more frame: it is open and holds fewer than `sendCap` entries. -/
def Chan.HasRoom (ch : Chan) : Prop := ch.closed = false ∧ ch.buf.length < sendCap

instance (ch : Chan) : Decidable ch.HasRoom := by unfold Chan.HasRoom; infer_instance

/-! ## The primary variant: `src/backend/main.go` -/

namespace Backend

/-- The struct `Message`; field `Type` is spelled `Typ` (`Type` is reserved). -/
structure Message where
  Typ : String := ""
  KeyHash : String := ""
  EncryptedMessage : String := ""
  EncryptedContent : String := ""
  ContentType : String := ""
  Success : Bool := false
  Message : String := ""
deriving DecidableEq, Repr

/-- The struct `Client`, without `Conn` and `LastSeen` (no hub operation reads them). -/
structure Client where
  KeyHash : String
  Send : Chan
deriving DecidableEq, Repr

/-- The client `handleWebSocket` creates. -/
def Client.new : Client := { KeyHash := "", Send := Chan.make }

/-- The global `hub` together with the clients it points to.
`clients` lists the keys of `hub.clients` (a Go map: insertion is guarded, deletion
removes every occurrence and iteration visits each key once);
`unregister` lists the clients `sendMessage` has sent on `hub.unregister` and `Hub.run`
has not received yet;
`heap` gives the record behind each pointer.
The values `Hub.run` receives on its channels are the arguments of the steps below, and
the mutex is not represented: each function below runs as one atomic step. -/
structure Hub where
  clients : List ClientId
  unregister : List ClientId
  heap : ClientId → Client

/-- The state `init` leaves: no live client, every client still to be created. -/
def Hub.init : Hub := { clients := [], unregister := [], heap := fun _ => Client.new }

/-- Write a client record. -/
def Hub.setClient (h : Hub) (c : ClientId) (v : Client) : Hub :=
  { h with heap := Function.update h.heap c v }

/-- Map deletion `delete(hub.clients, c)`. -/
def Hub.delete (h : Hub) (c : ClientId) : Hub :=
  { h with clients := h.clients.filter (fun t => t ≠ c) }

/-- The keys a `for client := range hub.clients` loop visits. -/
def Hub.keys (h : Hub) : List ClientId := h.clients.dedup

/-- The `select`/`default` of `sendMessage`, `broadcastToSameKey` and the broadcast case
of `Hub.run`, without what follows the `close`: try to enqueue `b` on the `Send` channel
of `client`; when the channel is full, `close(client.Send)`.  Returns whether it was sent. -/
def sendOrClose (h : Hub) (client : ClientId) (b : Frame) : Except Fault (Hub × Bool) :=
  match (h.heap client).Send.trySend b with
  | .error e => .error e
  | .ok (.sent ch) => .ok (h.setClient client { h.heap client with Send := ch }, true)
  | .ok .wouldBlock =>
    match (h.heap client).Send.close with
    | .error e => .error e
    | .ok ch => .ok (h.setClient client { h.heap client with Send := ch }, false)

/-- The method `Client.sendMessage`; `marshal` is `json.Marshal`. -/
def sendMessage (marshal : Message → Option Frame) (h : Hub) (c : ClientId) (msg : Message) :
    Except Fault Hub :=
  match marshal msg with
  | none => .ok h
  | some messageBytes =>
    match sendOrClose h c messageBytes with
    | .error e => .error e
    | .ok (h1, true) => .ok h1
    | .ok (h1, false) => .ok { h1 with unregister := h1.unregister ++ [c] }

/-- The method `Client.sendError`. -/
def sendError (marshal : Message → Option Frame) (h : Hub) (c : ClientId) (message : String) :
    Except Fault Hub :=
  sendMessage marshal h c { Typ := "error", Message := message }

/-- One iteration of the loop of `broadcastToSameKey`. -/
def broadcastToSameKeyBody (c : ClientId) (messageBytes : Frame) (h : Hub) (client : ClientId) :
    Except Fault Hub :=
  if client ≠ c ∧ (h.heap client).KeyHash = (h.heap c).KeyHash then
    match sendOrClose h client messageBytes with
    | .error e => .error e
    | .ok (h1, true) => .ok h1
    | .ok (h1, false) => .ok (h1.delete client)
  else .ok h

/-- The loop `for client := range hub.clients` of `broadcastToSameKey` over the keys `l`. -/
def broadcastToSameKeyLoop (c : ClientId) (messageBytes : Frame) :
    List ClientId → Hub → Except Fault Hub
  | [], h => .ok h
  | client :: rest, h =>
    match broadcastToSameKeyBody c messageBytes h client with
    | .error e => .error e
    | .ok h1 => broadcastToSameKeyLoop c messageBytes rest h1

/-- The method `Client.broadcastToSameKey`. -/
def broadcastToSameKey (marshal : Message → Option Frame) (h : Hub) (c : ClientId)
    (msg : Message) : Except Fault Hub :=
  match marshal msg with
  | none => .ok h
  | some messageBytes => broadcastToSameKeyLoop c messageBytes h.keys h

/-- The method `Client.handleMessage`. -/
def handleMessage (marshal : Message → Option Frame) (h : Hub) (c : ClientId) (msg : Message) :
    Except Fault Hub :=
  if msg.Typ = "register" then
    if msg.KeyHash = "" then sendError marshal h c "密钥哈希不能为空"
    else
      sendMessage marshal (h.setClient c { h.heap c with KeyHash := msg.KeyHash }) c
        { Typ := "register_success", Message := "注册成功" }
  else if msg.Typ = "message" then
    if (h.heap c).KeyHash = "" then sendError marshal h c "请先注册"
    else if msg.KeyHash ≠ (h.heap c).KeyHash then sendError marshal h c "密钥不匹配"
    else
      broadcastToSameKey marshal h c
        { Typ := "message", EncryptedMessage := msg.EncryptedMessage }
  else if msg.Typ = "copy" then
    if (h.heap c).KeyHash = "" then sendError marshal h c "请先注册"
    else if msg.KeyHash ≠ (h.heap c).KeyHash then sendError marshal h c "密钥不匹配"
    else
      match broadcastToSameKey marshal h c
          { Typ := "copy", EncryptedContent := msg.EncryptedContent,
            ContentType := msg.ContentType } with
      | .error e => .error e
      | .ok h1 =>
        sendMessage marshal h1 c
          { Typ := "copy_response", Success := true, Message := "复制请求已发送" }
  else sendError marshal h c "未知消息类型"

/-- The case `client := <-h.register` of `Hub.run`. -/
def runRegister (h : Hub) (client : ClientId) : Hub :=
  { h with clients := if client ∈ h.clients then h.clients else h.clients ++ [client] }

/-- The case `client := <-h.unregister` of `Hub.run`. -/
def runUnregister (h : Hub) (client : ClientId) : Except Fault Hub :=
  if client ∈ h.clients then
    match ((h.delete client).heap client).Send.close with
    | .error e => .error e
    | .ok ch => .ok ((h.delete client).setClient client { h.heap client with Send := ch })
  else .ok h

/-- One iteration of the loop of the case `message := <-h.broadcast` of `Hub.run`. -/
def runBroadcastBody (message : Frame) (h : Hub) (client : ClientId) : Except Fault Hub :=
  match sendOrClose h client message with
  | .error e => .error e
  | .ok (h1, true) => .ok h1
  | .ok (h1, false) => .ok (h1.delete client)

/-- The loop of the case `message := <-h.broadcast` of `Hub.run` over the keys `l`. -/
def runBroadcastLoop (message : Frame) : List ClientId → Hub → Except Fault Hub
  | [], h => .ok h
  | client :: rest, h =>
    match runBroadcastBody message h client with
    | .error e => .error e
    | .ok h1 => runBroadcastLoop message rest h1

/-- The case `message := <-h.broadcast` of `Hub.run`. -/
def runBroadcast (h : Hub) (message : Frame) : Except Fault Hub :=
  runBroadcastLoop message h.keys h

/-- What one step of the program does: a value received by `Hub.run` on one of its three
channels (an unregister request comes from `sendMessage` or from the exit of a
`readPump`), or a decoded frame handed to `handleMessage` by the `readPump` of `c`. -/
inductive Step where
  | register (client : ClientId)
  | unregister (client : ClientId)
  | broadcast (message : Frame)
  | handleMessage (c : ClientId) (msg : Message)
deriving DecidableEq, Repr

/-- Execute one step; receiving an unregister request takes it off the pending ones. -/
def step (marshal : Message → Option Frame) (h : Hub) : Step → Except Fault Hub
  | .register client => .ok (runRegister h client)
  | .unregister client =>
    runUnregister { h with unregister := h.unregister.erase client } client
  | .broadcast message => runBroadcast h message
  | .handleMessage c msg => handleMessage marshal h c msg

/-- Execute a sequence of steps, stopping at the first panic. -/
def run (marshal : Message → Option Frame) : List Step → Hub → Except Fault Hub
  | [], h => .ok h
  | st :: rest, h =>
    match step marshal h st with
    | .error e => .error e
    | .ok h1 => run marshal rest h1

/-- The function `json.Marshal` when it returns no error, as it does on every `Message`
(all fields are strings or booleans): `enc` is the rendering. -/
def jsonMarshal (enc : Message → Frame) : Message → Option Frame := fun m => some (enc m)

/-- The hub a result holds, and `d` when the result is a panic. -/
def resultOr (r : Except Fault Hub) (d : Hub) : Hub :=
  match r with
  | .ok h => h
  | .error _ => d

/-- The hub a run of steps from the initial state ends in (the initial state when the
run panics). -/
def hubAfter (marshal : Message → Option Frame) (steps : List Step) : Hub :=
  resultOr (run marshal steps Hub.init) Hub.init

/-- The error text `handleMessage` answers with when the frame `msg` of a client whose
key is `key` fails validation, and `none` when the frame is accepted. -/
def validationFailure (key : String) (msg : Message) : Option String :=
  if msg.Typ = "register" then
    if msg.KeyHash = "" then some "密钥哈希不能为空" else none
  else if msg.Typ = "message" ∨ msg.Typ = "copy" then
    if key = "" then some "请先注册"
    else if msg.KeyHash ≠ key then some "密钥不匹配"
    else none
  else some "未知消息类型"

/-- The key of client `c` after the steps, from its key `k` before them: each `register`
frame of `c` with a non-empty key replaces it. -/
def keyAfter (c : ClientId) (k : String) : List Step → String
  | [] => k
  | .handleMessage c1 msg :: rest =>
    keyAfter c (if c1 = c ∧ msg.Typ = "register" ∧ msg.KeyHash ≠ "" then msg.KeyHash else k) rest
  | .register _ :: rest => keyAfter c k rest
  | .unregister _ :: rest => keyAfter c k rest
  | .broadcast _ :: rest => keyAfter c k rest

/-! ### Sample inputs -/

/-- A rendering of frames, standing for `json.Marshal` on sample inputs. -/
def sampleEnc (m : Message) : Frame :=
  m.Typ ++ "|" ++ m.Message ++ "|" ++ m.EncryptedMessage ++ "|" ++ m.EncryptedContent

/-- A frame of a type the protocol does not know. -/
def pingMsg : Message := { Typ := "ping" }

/-- Client `0` connects and sends 256 frames of an unknown type, none of the replies
being drained: its outbox ends up open and full. -/
def fillSteps : List Step :=
  .register 0 :: List.replicate 256 (.handleMessage 0 pingMsg)

/-- The hub after `fillSteps`. -/
def fullHub : Hub := hubAfter (jsonMarshal sampleEnc) fillSteps

/-- Clients `0`, `1`, `2` live under key `k` and client `3` under key `other`, all with
empty open outboxes. -/
def sampleHub : Hub :=
  { clients := [0, 1, 2, 3]
    unregister := []
    heap := fun t => if t = 3 then { KeyHash := "other", Send := Chan.make }
                     else { KeyHash := "k", Send := Chan.make } }

/-- As `sampleHub`, with the outbox of client `1` open and full. -/
def crowdedHub : Hub :=
  { clients := [0, 1, 2, 3]
    unregister := []
    heap := fun t => if t = 3 then { KeyHash := "other", Send := Chan.make }
                     else if t = 1 then
                       { KeyHash := "k", Send := { buf := List.replicate 256 "x", closed := false } }
                     else { KeyHash := "k", Send := Chan.make } }

/-- Client `0` connects and registers under key `a`. -/
def registerSteps : List Step :=
  [.register 0, .handleMessage 0 { Typ := "register", KeyHash := "a" }]

/-- The hub after `registerSteps`. -/
def registeredHub : Hub := hubAfter (jsonMarshal sampleEnc) registerSteps

/-- Client `0` connects, sends 257 frames of an unknown type while none of the replies is
drained, and the hub then receives the unregister request the last of them caused. -/
def doubleCloseSteps : List Step :=
  fillSteps ++ [.handleMessage 0 pingMsg, .unregister 0]

/-- Clients `0` and `1` connect and register under key `k`; client `0` then sends 256
frames of an unknown type while its outbox is not drained, the last of which finds the
outbox full. -/
def closedTargetSteps : List Step :=
  [.register 0, .register 1,
   .handleMessage 0 { Typ := "register", KeyHash := "k" },
   .handleMessage 1 { Typ := "register", KeyHash := "k" }] ++
  List.replicate 256 (.handleMessage 0 pingMsg)

/-! ### Vocabulary for stating what an operation did -/

/-- The hub after frame `b` has been enqueued at the tail of the outbox of `c`,
nothing else being touched. -/
def Hub.push (h : Hub) (c : ClientId) (b : Frame) : Hub :=
  h.setClient c { h.heap c with Send := { (h.heap c).Send with buf := (h.heap c).Send.buf ++ [b] } }

/-- The client `t` is a target of a broadcast by `c`: another client with the key of `c`. -/
def Hub.isTarget (h : Hub) (c t : ClientId) : Bool :=
  decide (t ≠ c) && decide ((h.heap t).KeyHash = (h.heap c).KeyHash)

/-- What a broadcast does to the record of an open target: enqueue when there is room,
close the outbox otherwise. -/
def deliver (b : Frame) (cl : Client) : Client :=
  if cl.Send.buf.length < sendCap then
    { cl with Send := { cl.Send with buf := cl.Send.buf ++ [b] } }
  else { cl with Send := { cl.Send with closed := true } }

/-- The hub after one iteration of the broadcast loop on an open client. -/
def bodyResult (c : ClientId) (b : Frame) (h : Hub) (a : ClientId) : Hub :=
  if h.isTarget c a then
    if (h.heap a).Send.buf.length < sendCap then h.setClient a (deliver b (h.heap a))
    else (h.setClient a (deliver b (h.heap a))).delete a
  else h

/-- The hub after the broadcast loop of `c` over the keys `l`, all targets being open. -/
def loopResult (c : ClientId) (b : Frame) (l : List ClientId) (h : Hub) : Hub :=
  { clients := h.clients.filter (fun t =>
      !(decide (t ∈ l) && h.isTarget c t && decide (sendCap ≤ (h.heap t).Send.buf.length)))
    unregister := h.unregister
    heap := fun t => if t ∈ l ∧ h.isTarget c t = true then deliver b (h.heap t) else h.heap t }

end Backend

/-! ## The secondary variant: `src/copy_back/main.go` -/

namespace CopyBack

/-- The struct `Message`; field `Type` is spelled `Typ` (`Type` is reserved). -/
structure Message where
  Typ : String := ""
  KeyHash : String := ""
  EncryptedMessage : String := ""
  Message : String := ""
deriving DecidableEq, Repr

/-- The struct `Client`, without `Conn`. -/
structure Client where
  KeyHash : String
  Send : Chan
deriving DecidableEq, Repr

/-- The client `handleWebSocket` creates. -/
def Client.new : Client := { KeyHash := "", Send := Chan.make }

/-- The struct `Hub` together with the clients it points to.
`clients` lists the keys of the map `clients`; `keyClients` is the map from a key hash to
its slice of clients (`none` when the key is absent); `broadcast` lists the messages
`readPump` has sent on the channel `broadcast` and `run` has not received yet; `heap`
gives the record behind each pointer. -/
structure Hub where
  clients : List ClientId
  keyClients : String → Option (List ClientId)
  broadcast : List Message
  heap : ClientId → Client

/-- The hub `newHub` returns, every client still to be created. -/
def newHub : Hub :=
  { clients := [], keyClients := fun _ => none, broadcast := [], heap := fun _ => Client.new }

/-- Write a client record. -/
def Hub.setClient (h : Hub) (c : ClientId) (v : Client) : Hub :=
  { h with heap := Function.update h.heap c v }

/-- Map deletion `delete(h.clients, c)`. -/
def Hub.delete (h : Hub) (c : ClientId) : Hub :=
  { h with clients := h.clients.filter (fun t => t ≠ c) }

/-- Map read `h.keyClients[key]`: the nil slice when the key is absent. -/
def Hub.group (h : Hub) (key : String) : List ClientId := (h.keyClients key).getD []

/-- The statement `h.keyClients[key] = append(h.keyClients[key], c)`. -/
def Hub.appendToGroup (h : Hub) (key : String) (c : ClientId) : Hub :=
  { h with keyClients := Function.update h.keyClients key (some (h.group key ++ [c])) }

/-- The case `client := <-h.register` of `Hub.run`. -/
def runRegister (h : Hub) (client : ClientId) : Hub :=
  let h1 : Hub :=
    { h with clients := if client ∈ h.clients then h.clients else h.clients ++ [client] }
  if (h.heap client).KeyHash ≠ "" then h1.appendToGroup (h.heap client).KeyHash client
  else h1

/-- The removal of `client` from `h.keyClients[client.KeyHash]` in the unregister case:
the first occurrence is cut out of the slice, and the key is deleted when the slice is
then empty. -/
def removeFromKeyClients (h : Hub) (client : ClientId) : Hub :=
  let key := (h.heap client).KeyHash
  let h1 : Hub :=
    if client ∈ h.group key then
      { h with keyClients := Function.update h.keyClients key (some ((h.group key).erase client)) }
    else h
  if (h1.group key).length = 0 then
    { h1 with keyClients := Function.update h1.keyClients key none }
  else h1

/-- The case `client := <-h.unregister` of `Hub.run`. -/
def runUnregister (h : Hub) (client : ClientId) : Except Fault Hub :=
  if client ∈ h.clients then
    match (h.heap client).Send.close with
    | .error e => .error e
    | .ok ch =>
      let h1 := (h.delete client).setClient client { h.heap client with Send := ch }
      if (h1.heap client).KeyHash ≠ "" then .ok (removeFromKeyClients h1 client)
      else .ok h1
  else .ok h

/-- The frame the broadcast case builds with `fmt.Sprintf`. -/
def relayFrame (encryptedMessage : String) : Frame :=
  "\x7b\"type\":\"message\",\"encryptedMessage\":\"" ++ encryptedMessage ++ "\"\x7d"

/-- One iteration of the loop of the case `message := <-h.broadcast` of `Hub.run`. -/
def runBroadcastBody (b : Frame) (h : Hub) (client : ClientId) : Except Fault Hub :=
  match (h.heap client).Send.trySend b with
  | .error e => .error e
  | .ok (.sent ch) => .ok (h.setClient client { h.heap client with Send := ch })
  | .ok .wouldBlock =>
    match (h.heap client).Send.close with
    | .error e => .error e
    | .ok ch => .ok ((h.setClient client { h.heap client with Send := ch }).delete client)

/-- The loop `for _, client := range clients` of the broadcast case over the slice `l`. -/
def runBroadcastLoop (b : Frame) : List ClientId → Hub → Except Fault Hub
  | [], h => .ok h
  | client :: rest, h =>
    match runBroadcastBody b h client with
    | .error e => .error e
    | .ok h1 => runBroadcastLoop b rest h1

/-- The case `message := <-h.broadcast` of `Hub.run`. -/
def runBroadcast (h : Hub) (message : Message) : Except Fault Hub :=
  if message.Typ = "message" ∧ message.KeyHash ≠ "" then
    match h.keyClients message.KeyHash with
    | some clients => runBroadcastLoop (relayFrame message.EncryptedMessage) clients h
    | none => .ok h
  else .ok h

/-- The `switch` of `readPump` on one decoded frame of client `c`. -/
def readPump (h : Hub) (c : ClientId) (message : Message) : Hub :=
  if message.Typ = "register" then
    (h.setClient c { h.heap c with KeyHash := message.KeyHash }).appendToGroup message.KeyHash c
  else if message.Typ = "message" then
    { h with broadcast := h.broadcast ++ [message] }
  else h

/-- What one step of the program does: a value received by `Hub.run` on one of its three
channels, or a decoded frame of client `c` going through the `switch` of `readPump`. -/
inductive Step where
  | register (client : ClientId)
  | unregister (client : ClientId)
  | broadcast (message : Message)
  | readPump (c : ClientId) (message : Message)
deriving DecidableEq, Repr

/-- Execute one step; receiving a broadcast message takes it off the pending ones. -/
def step (h : Hub) : Step → Except Fault Hub
  | .register client => .ok (runRegister h client)
  | .unregister client => runUnregister h client
  | .broadcast message =>
    runBroadcast { h with broadcast := h.broadcast.erase message } message
  | .readPump c message => .ok (readPump h c message)

/-- Execute a sequence of steps, stopping at the first panic. -/
def run : List Step → Hub → Except Fault Hub
  | [], h => .ok h
  | st :: rest, h =>
    match step h st with
    | .error e => .error e
    | .ok h1 => run rest h1

/-- The hub a result holds, and `d` when the result is a panic. -/
def resultOr (r : Except Fault Hub) (d : Hub) : Hub :=
  match r with
  | .ok h => h
  | .error _ => d

/-- The hub a run of steps from `newHub` ends in (`newHub` when the run panics). -/
def hubAfter (steps : List Step) : Hub :=
  resultOr (run steps newHub) newHub

/-- The hub invariant of the claim: every client that occurs in some group of
`keyClients` also occurs in the live set. -/
def GroupedAreLive (h : Hub) : Prop :=
  ∀ key t, t ∈ h.group key → t ∈ h.clients

/-- The hub after frame `b` has been enqueued `n` times at the tail of the outbox of
each client `t`, `n` being the number of occurrences of `t` in `g`. -/
def deliverAll (b : Frame) (g : List ClientId) (h : Hub) : Hub :=
  { h with heap := fun t =>
      { h.heap t with
        Send := { (h.heap t).Send with
          buf := (h.heap t).Send.buf ++ List.replicate (g.count t) b } } }

/-! ### Sample inputs -/

/-- Client `0` connects, registers under key `a`, registers again under key `b`, and is
then unregistered. -/
def reRegisterSteps : List Step :=
  [.register 0, .readPump 0 { Typ := "register", KeyHash := "a" },
   .readPump 0 { Typ := "register", KeyHash := "b" }, .unregister 0]

/-- A `message` frame for group `a`. -/
def relayMsg : Message := { Typ := "message", KeyHash := "a", EncryptedMessage := "X" }

/-- Client `0` connects and registers under key `a`. -/
def joinSteps : List Step :=
  [.register 0, .readPump 0 { Typ := "register", KeyHash := "a" }]

/-- The hub after `joinSteps`: client `0` is live and alone in group `a`. -/
def joinedHub : Hub := hubAfter joinSteps

/-- After `joinSteps`, client `0` sends `n` `message` frames for its own group, each one
being broadcast by the hub before the next, and no outbox is drained. -/
def floodSteps (n : Nat) : List Step :=
  joinSteps ++ (List.replicate n [Step.readPump 0 relayMsg, Step.broadcast relayMsg]).flatten

/-- Clients `0` and `1` connect and register under key `a`. -/
def pairSteps : List Step :=
  [.register 0, .register 1, .readPump 0 { Typ := "register", KeyHash := "a" },
   .readPump 1 { Typ := "register", KeyHash := "a" }]

/-- The hub after `pairSteps`. -/
def pairHub : Hub := hubAfter pairSteps

end CopyBack

namespace Backend

/-! ### Lemmas on the primary variant -/

theorem hub_ext_fields {h k : Hub} (h1 : h.clients = k.clients)
    (h2 : h.unregister = k.unregister) (h3 : h.heap = k.heap) : h = k := by
  cases h; cases k; simp_all

theorem sendOrClose_open (h : Hub) (t : ClientId) (b : Frame)
    (ho : (h.heap t).Send.closed = false) :
    sendOrClose h t b =
      .ok (h.setClient t (deliver b (h.heap t)), decide ((h.heap t).Send.buf.length < sendCap)) := by
  unfold sendOrClose Chan.trySend Chan.close deliver
  by_cases hl : (h.heap t).Send.buf.length < sendCap <;> simp [ho, hl]

theorem sendOrClose_hasRoom (h : Hub) (t : ClientId) (b : Frame)
    (hr : (h.heap t).Send.HasRoom) : sendOrClose h t b = .ok (h.push t b, true) := by
  rw [sendOrClose_open h t b hr.1]
  simp [deliver, hr.2, Hub.push]

theorem sendMessage_hasRoom (enc : Message → Frame) (h : Hub) (c : ClientId) (msg : Message)
    (hr : (h.heap c).Send.HasRoom) :
    sendMessage (jsonMarshal enc) h c msg = .ok (h.push c (enc msg)) := by
  simp [sendMessage, jsonMarshal, sendOrClose_hasRoom h c (enc msg) hr]

theorem sendError_hasRoom (enc : Message → Frame) (h : Hub) (c : ClientId) (text : String)
    (hr : (h.heap c).Send.HasRoom) :
    sendError (jsonMarshal enc) h c text =
      .ok (h.push c (enc { Typ := "error", Message := text })) := by
  simp [sendError, sendMessage_hasRoom enc h c _ hr]

theorem broadcastToSameKeyBody_open (c : ClientId) (b : Frame) (h : Hub) (a : ClientId)
    (ho : h.isTarget c a = true → (h.heap a).Send.closed = false) :
    broadcastToSameKeyBody c b h a = .ok (bodyResult c b h a) := by
  unfold broadcastToSameKeyBody bodyResult
  by_cases ht : h.isTarget c a = true
  · have ht2 : a ≠ c ∧ (h.heap a).KeyHash = (h.heap c).KeyHash := by
      simpa [Hub.isTarget] using ht
    rw [if_pos ht2, sendOrClose_open h a b (ho ht)]
    by_cases hl : (h.heap a).Send.buf.length < sendCap <;> simp [ht, hl]
  · have ht2 : ¬ (a ≠ c ∧ (h.heap a).KeyHash = (h.heap c).KeyHash) := by
      simpa [Hub.isTarget] using ht
    rw [if_neg ht2]
    simp [ht]

theorem bodyResult_heap (c : ClientId) (b : Frame) (h : Hub) (a t : ClientId) :
    (bodyResult c b h a).heap t =
      if t = a ∧ h.isTarget c a = true then deliver b (h.heap t) else h.heap t := by
  unfold bodyResult
  by_cases ht : h.isTarget c a = true
  · by_cases hl : (h.heap a).Send.buf.length < sendCap <;>
      by_cases hta : t = a <;> simp [ht, hl, hta, Hub.setClient, Hub.delete, Function.update]
  · simp [ht]

theorem bodyResult_unregister (c : ClientId) (b : Frame) (h : Hub) (a : ClientId) :
    (bodyResult c b h a).unregister = h.unregister := by
  unfold bodyResult
  by_cases ht : h.isTarget c a = true <;>
    by_cases hl : (h.heap a).Send.buf.length < sendCap <;>
      simp [ht, hl, Hub.setClient, Hub.delete]

theorem bodyResult_clients (c : ClientId) (b : Frame) (h : Hub) (a : ClientId) :
    (bodyResult c b h a).clients =
      h.clients.filter (fun t =>
        !(decide (t = a) && h.isTarget c a && decide (sendCap ≤ (h.heap a).Send.buf.length))) := by
  unfold bodyResult
  by_cases ht : h.isTarget c a = true
  · by_cases hl : (h.heap a).Send.buf.length < sendCap
    · have : ¬ sendCap ≤ (h.heap a).Send.buf.length := by omega
      simp [ht, hl, this, Hub.setClient]
    · have : sendCap ≤ (h.heap a).Send.buf.length := by omega
      simp [ht, hl, this, Hub.setClient, Hub.delete]
  · simp [ht]


theorem deliver_KeyHash (b : Frame) (cl : Client) : (deliver b cl).KeyHash = cl.KeyHash := by
  unfold deliver; split <;> rfl

theorem bodyResult_isTarget (c : ClientId) (b : Frame) (h : Hub) (a t : ClientId) :
    (bodyResult c b h a).isTarget c t = h.isTarget c t := by
  have hk : ∀ x, ((bodyResult c b h a).heap x).KeyHash = (h.heap x).KeyHash := by
    intro x
    rw [bodyResult_heap]
    split
    · exact deliver_KeyHash b _
    · rfl
  simp [Hub.isTarget, hk]

theorem broadcastToSameKeyLoop_open (c : ClientId) (b : Frame) :
    ∀ (l : List ClientId) (h : Hub), l.Nodup →
      (∀ t ∈ l, h.isTarget c t = true → (h.heap t).Send.closed = false) →
      broadcastToSameKeyLoop c b l h = .ok (loopResult c b l h) := by
  intro l
  induction l with
  | nil =>
    intro h _ _
    simp [broadcastToSameKeyLoop, loopResult]
  | cons a l ih =>
    intro h hnd ho
    have hal : a ∉ l := (List.nodup_cons.mp hnd).1
    have hl : l.Nodup := (List.nodup_cons.mp hnd).2
    have hne : ∀ t ∈ l, t ≠ a := fun t ht hta => hal (hta ▸ ht)
    unfold broadcastToSameKeyLoop
    rw [broadcastToSameKeyBody_open c b h a (ho a (List.mem_cons_self a l))]
    have hheap : ∀ t, t ≠ a → (bodyResult c b h a).heap t = h.heap t := by
      intro t hta
      rw [bodyResult_heap]; simp [hta]
    have ho1 : ∀ t ∈ l, (bodyResult c b h a).isTarget c t = true →
        ((bodyResult c b h a).heap t).Send.closed = false := by
      intro t ht htt
      rw [bodyResult_isTarget] at htt
      rw [hheap t (hne t ht)]
      exact ho t (List.mem_cons_of_mem a ht) htt
    show broadcastToSameKeyLoop c b l (bodyResult c b h a) = _
    rw [ih (bodyResult c b h a) hl ho1]
    congr 1
    apply hub_ext_fields
    · simp only [loopResult, bodyResult_clients, List.filter_filter]
      apply List.filter_congr
      intro x _
      by_cases hxa : x = a
      · subst hxa
        simp [hal]
      · simp [hxa, bodyResult_isTarget, hheap x hxa]
    · simp [loopResult, bodyResult_unregister]
    · funext t
      by_cases hta : t = a
      · subst hta
        simp [loopResult, hal, bodyResult_heap]
      · simp [loopResult, hta, bodyResult_isTarget, hheap t hta]

theorem broadcastToSameKey_open (enc : Message → Frame) (h : Hub) (c : ClientId) (msg : Message)
    (ho : ∀ t ∈ h.clients, h.isTarget c t = true → (h.heap t).Send.closed = false) :
    broadcastToSameKey (jsonMarshal enc) h c msg = .ok (loopResult c (enc msg) h.keys h) := by
  unfold broadcastToSameKey jsonMarshal
  exact broadcastToSameKeyLoop_open c (enc msg) h.keys h (List.nodup_dedup _)
    (fun t ht => ho t (List.mem_dedup.mp ht))


theorem filter_length_sender (p : ClientId → Bool) (c : ClientId) :
    ∀ l : List ClientId, l.Nodup → c ∈ l → p c = true →
      (l.filter (fun t => !decide (t = c) && p t)).length + 1 = (l.filter p).length := by
  intro l
  induction l with
  | nil => intro _ hc; simp at hc
  | cons a l ih =>
    intro hnd hc hp
    have hal : a ∉ l := (List.nodup_cons.mp hnd).1
    have hl : l.Nodup := (List.nodup_cons.mp hnd).2
    by_cases hac : a = c
    · subst hac
      have hsame : l.filter (fun t => !decide (t = a) && p t) = l.filter p := by
        apply List.filter_congr
        intro x hx
        have : x ≠ a := fun hxa => hal (hxa ▸ hx)
        simp [this]
      simp [List.filter_cons, hp, hsame]
    · have hcl : c ∈ l := by
        rcases List.mem_cons.mp hc with h1 | h1
        · exact absurd h1.symm hac
        · exact h1
      have := ih hl hcl hp
      by_cases hpa : p a = true
      · simp [List.filter_cons, hac, hpa]; omega
      · simp [List.filter_cons, hac, hpa]; omega

theorem deliver_ne (b : Frame) (cl : Client) (ho : cl.Send.closed = false) :
    deliver b cl ≠ cl := by
  unfold deliver
  intro heq
  split at heq
  · have := congrArg (fun x => x.Send.buf.length) heq
    simp at this
  · have := congrArg (fun x => x.Send.closed) heq
    simp [ho] at this

/-- Claim C1.  Let every live client other than the sender `c` that has the key of `c`
have an open outbox holding fewer than 256 entries.  Then `broadcastToSameKey` returns,
the live set and the pending unregister requests are unchanged, each such client has the
serialized message appended at the tail of its outbox (and nothing else of it changes),
every other client (the sender, a client with another key, a client that is not live) is
unchanged, and, when the sender is live, the number of live clients whose record
changed is one less than the number of live clients that share the key. -/
theorem broadcastToSameKey_delivers (enc : Message → Frame) (h : Hub) (c : ClientId)
    (msg : Message)
    (hroom : ∀ t ∈ h.clients, t ≠ c → (h.heap t).KeyHash = (h.heap c).KeyHash →
      (h.heap t).Send.HasRoom) :
    ∃ h1, broadcastToSameKey (jsonMarshal enc) h c msg = .ok h1 ∧
      h1.clients = h.clients ∧ h1.unregister = h.unregister ∧
      (∀ t ∈ h.clients, t ≠ c → (h.heap t).KeyHash = (h.heap c).KeyHash →
        h1.heap t = { h.heap t with
          Send := { (h.heap t).Send with buf := (h.heap t).Send.buf ++ [enc msg] } }) ∧
      (∀ t, ¬ (t ∈ h.clients ∧ t ≠ c ∧ (h.heap t).KeyHash = (h.heap c).KeyHash) →
        h1.heap t = h.heap t) ∧
      h1.heap c = h.heap c ∧
      (c ∈ h.clients →
        (h.keys.filter (fun t => decide (h1.heap t ≠ h.heap t))).length + 1 =
          (h.keys.filter
            (fun t => decide ((h.heap t).KeyHash = (h.heap c).KeyHash))).length) := by
  have htgt : ∀ t, h.isTarget c t = true ↔
      (t ≠ c ∧ (h.heap t).KeyHash = (h.heap c).KeyHash) := by
    intro t; simp [Hub.isTarget]
  have hopen : ∀ t ∈ h.clients, h.isTarget c t = true → (h.heap t).Send.closed = false :=
    fun t ht htt => (hroom t ht ((htgt t).mp htt).1 ((htgt t).mp htt).2).1
  have hlen : ∀ t ∈ h.clients, h.isTarget c t = true →
      (h.heap t).Send.buf.length < sendCap :=
    fun t ht htt => (hroom t ht ((htgt t).mp htt).1 ((htgt t).mp htt).2).2
  have hheap : ∀ t, (loopResult c (enc msg) h.keys h).heap t =
      if t ∈ h.clients ∧ h.isTarget c t = true then deliver (enc msg) (h.heap t)
      else h.heap t := by
    intro t; simp [loopResult, Hub.keys]
  refine ⟨_, broadcastToSameKey_open enc h c msg hopen, ?_, rfl, ?_, ?_, ?_, ?_⟩
  · show h.clients.filter _ = h.clients
    rw [List.filter_eq_self]
    intro t ht
    by_cases htt : h.isTarget c t = true
    · have := hlen t ht htt
      have hnot : ¬ sendCap ≤ (h.heap t).Send.buf.length := by omega
      simp [hnot]
    · simp [htt]
  · intro t ht htc hk
    have htt : h.isTarget c t = true := (htgt t).mpr ⟨htc, hk⟩
    rw [hheap t, if_pos ⟨ht, htt⟩]
    simp [deliver, hlen t ht htt]
  · intro t hnt
    rw [hheap t, if_neg]
    rintro ⟨ht, htt⟩
    exact hnt ⟨ht, (htgt t).mp htt⟩
  · rw [hheap c, if_neg]
    rintro ⟨_, htt⟩
    exact ((htgt c).mp htt).1 rfl
  · intro hc
    have hcong : h.keys.filter
        (fun t => decide ((loopResult c (enc msg) h.keys h).heap t ≠ h.heap t)) =
        h.keys.filter (fun t => !decide (t = c) &&
          decide ((h.heap t).KeyHash = (h.heap c).KeyHash)) := by
      apply List.filter_congr
      intro t ht
      have ht2 : t ∈ h.clients := List.mem_dedup.mp ht
      rw [hheap t]
      by_cases htt : h.isTarget c t = true
      · have hne := deliver_ne (enc msg) (h.heap t) (hopen t ht2 htt)
        have := (htgt t).mp htt
        simp [ht2, htt, hne, this.1, this.2]
      · have hn : ¬ (t ≠ c ∧ (h.heap t).KeyHash = (h.heap c).KeyHash) :=
          fun hh => htt ((htgt t).mpr hh)
        have hb : (!decide (t = c) && decide ((h.heap t).KeyHash = (h.heap c).KeyHash))
            = false := by
          simpa [Hub.isTarget] using htt
        rw [hb]
        simp [htt]
    rw [hcong]
    exact filter_length_sender
      (fun t => decide ((h.heap t).KeyHash = (h.heap c).KeyHash)) c h.keys
      (List.nodup_dedup _) (List.mem_dedup.mpr hc) (by simp)

/-- Claim C4, amended.  Let every live client other than the sender `c` that has the key
of `c` have an open outbox.  Then `broadcastToSameKey` returns and: each such client whose outbox
holds its full capacity has its outbox closed, is no longer in the live set and has the
same queued frames as before; each such client whose outbox has room is still live and
has the serialized message appended once at the tail of its outbox; the sender is still
live if it was and its record is unchanged; no client that is not such a target
changes, and no client joins the live set. -/
theorem broadcastToSameKey_evicts_full (enc : Message → Frame) (h : Hub) (c : ClientId)
    (msg : Message)
    (hopen : ∀ t ∈ h.clients, t ≠ c → (h.heap t).KeyHash = (h.heap c).KeyHash →
      (h.heap t).Send.closed = false) :
    ∃ h1, broadcastToSameKey (jsonMarshal enc) h c msg = .ok h1 ∧
      (∀ t ∈ h.clients, t ≠ c → (h.heap t).KeyHash = (h.heap c).KeyHash →
        sendCap ≤ (h.heap t).Send.buf.length →
          (h1.heap t).Send.closed = true ∧ t ∉ h1.clients ∧
          (h1.heap t).Send.buf = (h.heap t).Send.buf) ∧
      (∀ t ∈ h.clients, t ≠ c → (h.heap t).KeyHash = (h.heap c).KeyHash →
        (h.heap t).Send.buf.length < sendCap →
          t ∈ h1.clients ∧
          h1.heap t = { h.heap t with
            Send := { (h.heap t).Send with buf := (h.heap t).Send.buf ++ [enc msg] } }) ∧
      (c ∈ h.clients → c ∈ h1.clients) ∧ h1.heap c = h.heap c ∧
      (∀ t, ¬ (t ∈ h.clients ∧ t ≠ c ∧ (h.heap t).KeyHash = (h.heap c).KeyHash) →
        h1.heap t = h.heap t) ∧
      (∀ t, t ∈ h1.clients → t ∈ h.clients) := by
  have htgt : ∀ t, h.isTarget c t = true ↔
      (t ≠ c ∧ (h.heap t).KeyHash = (h.heap c).KeyHash) := by
    intro t; simp [Hub.isTarget]
  have hopen2 : ∀ t ∈ h.clients, h.isTarget c t = true → (h.heap t).Send.closed = false :=
    fun t ht htt => hopen t ht ((htgt t).mp htt).1 ((htgt t).mp htt).2
  have hheap : ∀ t, (loopResult c (enc msg) h.keys h).heap t =
      if t ∈ h.clients ∧ h.isTarget c t = true then deliver (enc msg) (h.heap t)
      else h.heap t := by
    intro t; simp [loopResult, Hub.keys]
  have hmem : ∀ t, t ∈ (loopResult c (enc msg) h.keys h).clients ↔
      t ∈ h.clients ∧ ¬ (h.isTarget c t = true ∧ sendCap ≤ (h.heap t).Send.buf.length) := by
    intro t
    simp only [loopResult, Hub.keys, List.mem_filter, List.mem_dedup]
    constructor
    · rintro ⟨h1, h2⟩
      refine ⟨h1, ?_⟩
      rintro ⟨h3, h4⟩
      simp [h1, h3, h4] at h2
    · rintro ⟨h1, h2⟩
      refine ⟨h1, ?_⟩
      by_cases h3 : h.isTarget c t = true
      · have : ¬ sendCap ≤ (h.heap t).Send.buf.length := fun h4 => h2 ⟨h3, h4⟩
        simp [this]
      · simp [h3]
  refine ⟨_, broadcastToSameKey_open enc h c msg hopen2, ?_, ?_, ?_, ?_, ?_, ?_⟩
  · intro t ht htc hk hfull
    have htt : h.isTarget c t = true := (htgt t).mpr ⟨htc, hk⟩
    have hnl : ¬ (h.heap t).Send.buf.length < sendCap := by omega
    rw [hheap t, if_pos ⟨ht, htt⟩, hmem t]
    refine ⟨by simp [deliver, hnl], fun hh => hh.2 ⟨htt, hfull⟩, by simp [deliver, hnl]⟩
  · intro t ht htc hk hlt
    have htt : h.isTarget c t = true := (htgt t).mpr ⟨htc, hk⟩
    rw [hheap t, if_pos ⟨ht, htt⟩, hmem t]
    refine ⟨⟨ht, fun hh => by omega⟩, by simp [deliver, hlt]⟩
  · intro hc
    rw [hmem c]
    exact ⟨hc, fun hh => ((htgt c).mp hh.1).1 rfl⟩
  · rw [hheap c, if_neg]
    rintro ⟨_, htt⟩
    exact ((htgt c).mp htt).1 rfl
  · intro t hnt
    rw [hheap t, if_neg]
    rintro ⟨ht, htt⟩
    exact hnt ⟨ht, (htgt t).mp htt⟩
  · intro t ht
    exact ((hmem t).mp ht).1


theorem sendOrClose_frame (h : Hub) (t : ClientId) (b : Frame) (h1 : Hub) (r : Bool)
    (hs : sendOrClose h t b = .ok (h1, r)) :
    (h.heap t).Send.closed = false ∧ h1 = h.setClient t (deliver b (h.heap t)) ∧
      r = decide ((h.heap t).Send.buf.length < sendCap) := by
  by_cases ho : (h.heap t).Send.closed = false
  · rw [sendOrClose_open h t b ho] at hs
    simp only [Except.ok.injEq, Prod.mk.injEq] at hs
    exact ⟨ho, hs.1.symm, hs.2.symm⟩
  · simp [sendOrClose, Chan.trySend, ho] at hs

theorem sendMessage_frame (marshal : Message → Option Frame) (h : Hub) (c : ClientId)
    (msg : Message) (h1 : Hub) (hs : sendMessage marshal h c msg = .ok h1) :
    h1.clients = h.clients ∧ (∀ t, t ≠ c → h1.heap t = h.heap t) ∧
      (∀ t, (h1.heap t).KeyHash = (h.heap t).KeyHash) := by
  unfold sendMessage at hs
  cases hm : marshal msg with
  | none =>
    simp [hm] at hs
    subst hs
    exact ⟨rfl, fun _ _ => rfl, fun _ => rfl⟩
  | some b =>
    simp only [hm] at hs
    cases hsc : sendOrClose h c b with
    | error e => simp [hsc] at hs
    | ok p =>
      obtain ⟨h2, r⟩ := p
      obtain ⟨_, h2eq, _⟩ := sendOrClose_frame h c b h2 r hsc
      have hkey : ∀ t, ((h.setClient c (deliver b (h.heap c))).heap t).KeyHash
          = (h.heap t).KeyHash := by
        intro t
        by_cases htc : t = c
        · subst htc; simp [Hub.setClient, deliver_KeyHash]
        · simp [Hub.setClient, Function.update, htc]
      cases r with
      | true =>
        simp [hsc] at hs
        subst hs; subst h2eq
        exact ⟨rfl, fun t htc => by simp [Hub.setClient, Function.update, htc], hkey⟩
      | false =>
        simp [hsc] at hs
        subst hs; subst h2eq
        exact ⟨rfl, fun t htc => by simp [Hub.setClient, Function.update, htc], hkey⟩

theorem sendMessage_hasRoom_spec (enc : Message → Frame) (h : Hub) (c : ClientId)
    (msg : Message) (hr : (h.heap c).Send.HasRoom) :
    ∃ h1, sendMessage (jsonMarshal enc) h c msg = .ok h1 ∧
      h1.clients = h.clients ∧ h1.unregister = h.unregister ∧
      (∀ t, t ≠ c → h1.heap t = h.heap t) ∧
      h1.heap c = { h.heap c with
        Send := { buf := (h.heap c).Send.buf ++ [enc msg], closed := false } } := by
  refine ⟨_, sendMessage_hasRoom enc h c msg hr, rfl, rfl, ?_, ?_⟩
  · intro t htc
    simp [Hub.push, Hub.setClient, Function.update, htc]
  · have := hr.1
    simp [Hub.push, Hub.setClient, ← this]


/-- Claim C3.  Let the outbox of `c` be open with room and let `msg` be of type
`register`.  With an empty key, `handleMessage` leaves the key of `c` as it is and
enqueues exactly one error frame on the outbox of `c`; with a non-empty key, the key
of `c` becomes the key of the message and exactly one `register_success` frame is
enqueued on the outbox of `c`.  In both cases the live set, the pending requests and
every other client are unchanged. -/
theorem handleMessage_register (enc : Message → Frame) (h : Hub) (c : ClientId)
    (msg : Message) (hty : msg.Typ = "register") (hr : (h.heap c).Send.HasRoom) :
    (msg.KeyHash = "" →
      ∃ h1, handleMessage (jsonMarshal enc) h c msg = .ok h1 ∧
        h1.clients = h.clients ∧ h1.unregister = h.unregister ∧
        (∀ t, t ≠ c → h1.heap t = h.heap t) ∧
        h1.heap c =
          { KeyHash := (h.heap c).KeyHash
            Send := { buf := (h.heap c).Send.buf ++
                        [enc { Typ := "error", Message := "密钥哈希不能为空" }]
                      closed := false } }) ∧
    (msg.KeyHash ≠ "" →
      ∃ h1, handleMessage (jsonMarshal enc) h c msg = .ok h1 ∧
        h1.clients = h.clients ∧ h1.unregister = h.unregister ∧
        (∀ t, t ≠ c → h1.heap t = h.heap t) ∧
        h1.heap c =
          { KeyHash := msg.KeyHash
            Send := { buf := (h.heap c).Send.buf ++
                        [enc { Typ := "register_success", Message := "注册成功" }]
                      closed := false } }) := by
  constructor
  · intro hk
    obtain ⟨h1, hs, h2, h3, h4, h5⟩ :=
      sendMessage_hasRoom_spec enc h c { Typ := "error", Message := "密钥哈希不能为空" } hr
    refine ⟨h1, ?_, h2, h3, h4, h5⟩
    simp [handleMessage, hty, hk, sendError, hs]
  · intro hk
    have hr2 : ((h.setClient c { h.heap c with KeyHash := msg.KeyHash }).heap c).Send.HasRoom := by
      simpa [Hub.setClient] using hr
    obtain ⟨h1, hs, h2, h3, h4, h5⟩ :=
      sendMessage_hasRoom_spec enc (h.setClient c { h.heap c with KeyHash := msg.KeyHash }) c
        { Typ := "register_success", Message := "注册成功" } hr2
    refine ⟨h1, ?_, h2, h3, ?_, ?_⟩
    · simp [handleMessage, hty, hk, hs]
    · intro t htc
      rw [h4 t htc]
      simp [Hub.setClient, Function.update, htc]
    · rw [h5]
      simp [Hub.setClient]

/-- Witness of claim C3: client `0` of `sampleHub` registers under key `n`. -/
theorem handleMessage_register_witness :
    ({ Typ := "register", KeyHash := "n" } : Message).Typ = "register" ∧
    (sampleHub.heap 0).Send.HasRoom ∧
    ∃ h1, handleMessage (jsonMarshal sampleEnc) sampleHub 0
        { Typ := "register", KeyHash := "n" } = .ok h1 ∧
      h1.clients = sampleHub.clients ∧ (h1.heap 0).KeyHash = "n" :=
  ⟨rfl, by decide,
    let ⟨h1, hs, hc, _, _, hk⟩ :=
      (handleMessage_register sampleEnc sampleHub 0 { Typ := "register", KeyHash := "n" }
        rfl (by decide)).2 (by decide)
    ⟨h1, hs, hc, by rw [hk]⟩⟩


/-- Witness of claim C1: client `0` of `sampleHub` broadcasts to clients `1` and `2`. -/
theorem broadcastToSameKey_delivers_witness :
    (∀ t ∈ sampleHub.clients, t ≠ 0 →
      (sampleHub.heap t).KeyHash = (sampleHub.heap 0).KeyHash →
      (sampleHub.heap t).Send.HasRoom) ∧
    ∃ h1, broadcastToSameKey (jsonMarshal sampleEnc) sampleHub 0
        { Typ := "message", EncryptedMessage := "X" } = .ok h1 ∧
      h1.clients = sampleHub.clients ∧
      (h1.heap 1).Send.buf = [sampleEnc { Typ := "message", EncryptedMessage := "X" }] ∧
      h1.heap 0 = sampleHub.heap 0 ∧ h1.heap 3 = sampleHub.heap 3 :=
  ⟨by decide,
    let ⟨h1, hs, hc, _, ht, hn, h0, _⟩ :=
      broadcastToSameKey_delivers sampleEnc sampleHub 0
        { Typ := "message", EncryptedMessage := "X" } (by decide)
    ⟨h1, hs, hc, by rw [ht 1 (by decide) (by decide) (by decide)]; rfl, h0,
      hn 3 (by decide)⟩⟩

/-- Witness of claim C4 (amended): client `0` of `crowdedHub` broadcasts; client `1`, whose outbox
is full, is evicted and client `2` receives the frame. -/
theorem broadcastToSameKey_evicts_full_witness :
    (∀ t ∈ crowdedHub.clients, t ≠ 0 →
      (crowdedHub.heap t).KeyHash = (crowdedHub.heap 0).KeyHash →
      (crowdedHub.heap t).Send.closed = false) ∧
    ∃ h1, broadcastToSameKey (jsonMarshal sampleEnc) crowdedHub 0
        { Typ := "message", EncryptedMessage := "X" } = .ok h1 ∧
      (h1.heap 1).Send.closed = true ∧ 1 ∉ h1.clients ∧
      (h1.heap 1).Send.buf = (crowdedHub.heap 1).Send.buf ∧
      2 ∈ h1.clients ∧
      (h1.heap 2).Send.buf = [sampleEnc { Typ := "message", EncryptedMessage := "X" }] ∧
      0 ∈ h1.clients ∧ h1.heap 0 = crowdedHub.heap 0 :=
  ⟨by decide,
    let ⟨h1, hs, hfull, hroom, hlive, h0, _, _⟩ :=
      broadcastToSameKey_evicts_full sampleEnc crowdedHub 0
        { Typ := "message", EncryptedMessage := "X" } (by decide)
    ⟨h1, hs,
      (hfull 1 (by decide) (by decide) (by decide) (by decide)).1,
      (hfull 1 (by decide) (by decide) (by decide) (by decide)).2.1,
      (hfull 1 (by decide) (by decide) (by decide) (by decide)).2.2,
      (hroom 2 (by decide) (by decide) (by decide) (by decide)).1,
      by rw [(hroom 2 (by decide) (by decide) (by decide) (by decide)).2]; rfl,
      hlive (by decide), h0⟩⟩

theorem fullHub_reached :
    run (jsonMarshal sampleEnc) fillSteps Hub.init = .ok fullHub := by
  rfl

theorem fullHub_openFull :
    0 ∈ fullHub.clients ∧ (fullHub.heap 0).Send.closed = false ∧
      (fullHub.heap 0).Send.buf.length = sendCap ∧ (fullHub.heap 0).KeyHash = "" := by
  refine ⟨?_, ?_, ?_, ?_⟩ <;> decide


theorem sendError_hasRoom_spec (enc : Message → Frame) (h : Hub) (c : ClientId)
    (text : String) (hr : (h.heap c).Send.HasRoom) :
    ∃ h1, sendError (jsonMarshal enc) h c text = .ok h1 ∧
      h1.clients = h.clients ∧ h1.unregister = h.unregister ∧
      (∀ t, t ≠ c → h1.heap t = h.heap t) ∧
      h1.heap c = { h.heap c with
        Send := { buf := (h.heap c).Send.buf ++ [enc { Typ := "error", Message := text }]
                  closed := false } } :=
  sendMessage_hasRoom_spec enc h c { Typ := "error", Message := text } hr

theorem handleMessage_invalid (marshal : Message → Option Frame) (h : Hub) (c : ClientId)
    (msg : Message) (text : String)
    (hv : validationFailure (h.heap c).KeyHash msg = some text) :
    handleMessage marshal h c msg = sendError marshal h c text := by
  unfold validationFailure at hv
  unfold handleMessage
  by_cases h1 : msg.Typ = "register"
  · by_cases h2 : msg.KeyHash = ""
    · simp [h1, h2] at hv ⊢
      rw [hv]
    · simp [h1, h2] at hv
  · by_cases h3 : msg.Typ = "message"
    · by_cases h4 : (h.heap c).KeyHash = ""
      · simp [h3, h4] at hv ⊢
        rw [hv]
      · by_cases h5 : msg.KeyHash = (h.heap c).KeyHash
        · simp [h3, h4, h5] at hv
        · simp [h3, h4, h5] at hv ⊢
          rw [hv]
    · by_cases h6 : msg.Typ = "copy"
      · by_cases h4 : (h.heap c).KeyHash = ""
        · simp [h6, h4] at hv ⊢
          rw [hv]
        · by_cases h5 : msg.KeyHash = (h.heap c).KeyHash
          · simp [h6, h4, h5] at hv
          · simp [h6, h4, h5] at hv ⊢
            rw [hv]
      · simp [h1, h3, h6] at hv ⊢
        rw [hv]

/-- Claim C2, amended.  Let `msg` be of type `message` or `copy`.  `handleMessage` relays
(its result is that of `broadcastToSameKey` on the relayed frame, followed for `copy` by
the acknowledgment to `c`) when the key of `c` is non-empty and equals the key of the
message, and only then: otherwise whatever it returns has the live set, every other
client and the key of `c` unchanged.  When moreover the outbox of `c` is open with room,
the only effect in the two failure cases is one error frame at the tail of the outbox of
`c`: `请先注册` when the key of `c` is empty, `密钥不匹配` when the keys differ. -/
theorem handleMessage_relay (enc : Message → Frame) (h : Hub) (c : ClientId) (msg : Message)
    (hty : msg.Typ = "message" ∨ msg.Typ = "copy") :
    ((h.heap c).KeyHash ≠ "" → msg.KeyHash = (h.heap c).KeyHash →
      (msg.Typ = "message" →
        handleMessage (jsonMarshal enc) h c msg =
          broadcastToSameKey (jsonMarshal enc) h c
            { Typ := "message", EncryptedMessage := msg.EncryptedMessage }) ∧
      (msg.Typ = "copy" →
        handleMessage (jsonMarshal enc) h c msg =
          (broadcastToSameKey (jsonMarshal enc) h c
            { Typ := "copy", EncryptedContent := msg.EncryptedContent,
              ContentType := msg.ContentType }).bind
            (fun h1 => sendMessage (jsonMarshal enc) h1 c
              { Typ := "copy_response", Success := true, Message := "复制请求已发送" }))) ∧
    (¬ ((h.heap c).KeyHash ≠ "" ∧ msg.KeyHash = (h.heap c).KeyHash) →
      ∀ h1, handleMessage (jsonMarshal enc) h c msg = .ok h1 →
        h1.clients = h.clients ∧ (∀ t, t ≠ c → h1.heap t = h.heap t) ∧
        (h1.heap c).KeyHash = (h.heap c).KeyHash) ∧
    ((h.heap c).Send.HasRoom → (h.heap c).KeyHash = "" →
      ∃ h1, handleMessage (jsonMarshal enc) h c msg = .ok h1 ∧
        h1.clients = h.clients ∧ h1.unregister = h.unregister ∧
        (∀ t, t ≠ c → h1.heap t = h.heap t) ∧
        h1.heap c = { h.heap c with
          Send := { buf := (h.heap c).Send.buf ++ [enc { Typ := "error", Message := "请先注册" }]
                    closed := false } }) ∧
    ((h.heap c).Send.HasRoom → (h.heap c).KeyHash ≠ "" → msg.KeyHash ≠ (h.heap c).KeyHash →
      ∃ h1, handleMessage (jsonMarshal enc) h c msg = .ok h1 ∧
        h1.clients = h.clients ∧ h1.unregister = h.unregister ∧
        (∀ t, t ≠ c → h1.heap t = h.heap t) ∧
        h1.heap c = { h.heap c with
          Send := { buf := (h.heap c).Send.buf ++ [enc { Typ := "error", Message := "密钥不匹配" }]
                    closed := false } }) := by
  have hnr : msg.Typ ≠ "register" := by
    rcases hty with h1 | h1 <;> rw [h1] <;> decide
  have hempty : (h.heap c).KeyHash = "" →
      validationFailure (h.heap c).KeyHash msg = some "请先注册" := by
    intro hk
    simp [validationFailure, hnr, hty, hk]
  have hdiff : (h.heap c).KeyHash ≠ "" → msg.KeyHash ≠ (h.heap c).KeyHash →
      validationFailure (h.heap c).KeyHash msg = some "密钥不匹配" := by
    intro hk hd
    simp [validationFailure, hnr, hty, hk, hd]
  refine ⟨?_, ?_, ?_, ?_⟩
  · intro hk heq
    constructor
    · intro hm
      simp [handleMessage, hm, hk, heq]
    · intro hm
      have hnm : msg.Typ ≠ "message" := by rw [hm]; decide
      simp only [handleMessage, if_neg hnr, if_neg hnm, hm, if_true, if_neg hk, heq,
        ne_eq, not_true_eq_false, if_false]
      cases broadcastToSameKey (jsonMarshal enc) h c
          { Typ := "copy", EncryptedContent := msg.EncryptedContent,
            ContentType := msg.ContentType } <;> rfl
  · intro hn h1 hs
    have hv : ∃ text, validationFailure (h.heap c).KeyHash msg = some text := by
      by_cases hk : (h.heap c).KeyHash = ""
      · exact ⟨_, hempty hk⟩
      · exact ⟨_, hdiff hk (fun heq => hn ⟨hk, heq⟩)⟩
    obtain ⟨text, hv⟩ := hv
    rw [handleMessage_invalid _ h c msg text hv] at hs
    obtain ⟨ha, hb, hc⟩ := sendMessage_frame _ h c _ h1 hs
    exact ⟨ha, hb, hc c⟩
  · intro hr hk
    rw [handleMessage_invalid _ h c msg _ (hempty hk)]
    exact sendError_hasRoom_spec enc h c _ hr
  · intro hr hk hd
    rw [handleMessage_invalid _ h c msg _ (hdiff hk hd)]
    exact sendError_hasRoom_spec enc h c _ hr

/-- Witness of claim C2 (amended): client `0` of `sampleHub`, registered under `k`, sends
a `message` frame that declares key `z`. -/
theorem handleMessage_relay_witness :
    (({ Typ := "message", KeyHash := "z" } : Message).Typ = "message" ∨
      ({ Typ := "message", KeyHash := "z" } : Message).Typ = "copy") ∧
    ∃ h1, handleMessage (jsonMarshal sampleEnc) sampleHub 0
        { Typ := "message", KeyHash := "z" } = .ok h1 ∧
      h1.clients = sampleHub.clients ∧
      (h1.heap 0).Send.buf = [sampleEnc { Typ := "error", Message := "密钥不匹配" }] :=
  ⟨Or.inl rfl,
    let ⟨h1, hs, hc, _, _, h0⟩ :=
      (handleMessage_relay sampleEnc sampleHub 0 { Typ := "message", KeyHash := "z" }
        (Or.inl rfl)).2.2.2 (by decide) (by decide) (by decide)
    ⟨h1, hs, hc, by rw [h0]; rfl⟩⟩

/-- Counterexample to claim C2 as stated.  Client `0` of `fullHub` is live, has not
registered, and its outbox is open and full.  On a `message` frame `handleMessage`
returns, but no error frame is enqueued: the outbox of `0` keeps its 256 frames and is
closed, and an unregister request for `0` is sent to the hub. -/
theorem handleMessage_relay_full_outbox :
    (∃ h1, handleMessage (jsonMarshal sampleEnc) fullHub 0 { Typ := "message", KeyHash := "k" }
        = .ok h1 ∧
      (h1.heap 0).Send.buf = (fullHub.heap 0).Send.buf ∧
      (h1.heap 0).Send.closed = true ∧ h1.unregister = [0]) ∧
    ¬ ∃ h1, handleMessage (jsonMarshal sampleEnc) fullHub 0 { Typ := "message", KeyHash := "k" }
        = .ok h1 ∧
      (h1.heap 0).Send.buf =
        (fullHub.heap 0).Send.buf ++ [sampleEnc { Typ := "error", Message := "请先注册" }] := by
  have hs : handleMessage (jsonMarshal sampleEnc) fullHub 0 { Typ := "message", KeyHash := "k" }
      = .ok (hubAfter (jsonMarshal sampleEnc)
          (fillSteps ++ [.handleMessage 0 { Typ := "message", KeyHash := "k" }])) := by
    rfl
  refine ⟨⟨_, hs, by decide, by decide, by decide⟩, ?_⟩
  rintro ⟨h1, hs1, hb⟩
  rw [hs] at hs1
  cases hs1
  revert hb
  decide


/-- Claim C7, amended.  Let `c` be live with an outbox that is open and holds fewer than
256 entries, and let `msg` fail validation with error text `text` (a `register` with an
empty key, a `message` or `copy` before registration or with a mismatched key, an unknown
type).  Then `handleMessage` returns, `c` is still live, its outbox is still open, exactly
one error frame carrying `text` has been added at its tail, and nothing else changes. -/
theorem handleMessage_invalid_nonfatal (enc : Message → Frame) (h : Hub) (c : ClientId)
    (msg : Message) (text : String) (hlive : c ∈ h.clients)
    (hr : (h.heap c).Send.HasRoom)
    (hv : validationFailure (h.heap c).KeyHash msg = some text) :
    ∃ h1, handleMessage (jsonMarshal enc) h c msg = .ok h1 ∧
      c ∈ h1.clients ∧ (h1.heap c).Send.closed = false ∧
      (h1.heap c).Send.buf = (h.heap c).Send.buf ++ [enc { Typ := "error", Message := text }] ∧
      (h1.heap c).KeyHash = (h.heap c).KeyHash ∧
      h1.clients = h.clients ∧ h1.unregister = h.unregister ∧
      (∀ t, t ≠ c → h1.heap t = h.heap t) := by
  rw [handleMessage_invalid _ h c msg text hv]
  obtain ⟨h1, hs, hc, hu, ho, h0⟩ := sendError_hasRoom_spec enc h c text hr
  refine ⟨h1, hs, hc ▸ hlive, ?_, ?_, ?_, hc, hu, ho⟩ <;> rw [h0]

/-- Witness of claim C7 (amended): client `0` of `sampleHub` sends a frame of an unknown
type. -/
theorem handleMessage_invalid_nonfatal_witness :
    0 ∈ sampleHub.clients ∧ (sampleHub.heap 0).Send.HasRoom ∧
    validationFailure (sampleHub.heap 0).KeyHash pingMsg = some "未知消息类型" ∧
    ∃ h1, handleMessage (jsonMarshal sampleEnc) sampleHub 0 pingMsg = .ok h1 ∧
      0 ∈ h1.clients ∧ (h1.heap 0).Send.closed = false ∧
      (h1.heap 0).Send.buf = [sampleEnc { Typ := "error", Message := "未知消息类型" }] :=
  ⟨by decide, by decide, by decide,
    let ⟨h1, hs, hl, ho, hb, _⟩ :=
      handleMessage_invalid_nonfatal sampleEnc sampleHub 0 pingMsg "未知消息类型"
        (by decide) (by decide) (by decide)
    ⟨h1, hs, hl, ho, by rw [hb]; rfl⟩⟩

/-- Counterexample to claim C7 as stated.  Client `0` of `fullHub` is live and its outbox
is open and full.  A frame of an unknown type fails validation, and after `handleMessage`
the outbox of `0` is closed and holds no additional frame. -/
theorem handleMessage_invalid_full_outbox :
    0 ∈ fullHub.clients ∧ (fullHub.heap 0).Send.closed = false ∧
    validationFailure (fullHub.heap 0).KeyHash pingMsg = some "未知消息类型" ∧
    (∃ h1, handleMessage (jsonMarshal sampleEnc) fullHub 0 pingMsg = .ok h1 ∧
      (h1.heap 0).Send.closed = true ∧
      (h1.heap 0).Send.buf = (fullHub.heap 0).Send.buf) ∧
    ¬ ∃ h1, handleMessage (jsonMarshal sampleEnc) fullHub 0 pingMsg = .ok h1 ∧
      0 ∈ h1.clients ∧ (h1.heap 0).Send.closed = false ∧
      (h1.heap 0).Send.buf =
        (fullHub.heap 0).Send.buf ++ [sampleEnc { Typ := "error", Message := "未知消息类型" }] := by
  have hs : handleMessage (jsonMarshal sampleEnc) fullHub 0 pingMsg
      = .ok (hubAfter (jsonMarshal sampleEnc) (fillSteps ++ [.handleMessage 0 pingMsg])) := by
    rfl
  refine ⟨by decide, by decide, by decide, ⟨_, hs, by decide, by decide⟩, ?_⟩
  rintro ⟨h1, hs1, _, ho, _⟩
  rw [hs] at hs1
  cases hs1
  revert ho
  decide

/-! ### Claim C10: the key of a client -/

theorem sendMessage_KeyHash (marshal : Message → Option Frame) (h : Hub) (c : ClientId)
    (msg : Message) (h1 : Hub) (hs : sendMessage marshal h c msg = .ok h1) (t : ClientId) :
    (h1.heap t).KeyHash = (h.heap t).KeyHash :=
  (sendMessage_frame marshal h c msg h1 hs).2.2 t

theorem sendOrClose_KeyHash (h : Hub) (a : ClientId) (b : Frame) (h1 : Hub) (r : Bool)
    (hs : sendOrClose h a b = .ok (h1, r)) (t : ClientId) :
    (h1.heap t).KeyHash = (h.heap t).KeyHash := by
  obtain ⟨_, heq, _⟩ := sendOrClose_frame h a b h1 r hs
  subst heq
  by_cases hta : t = a
  · subst hta; simp [Hub.setClient, deliver_KeyHash]
  · simp [Hub.setClient, Function.update, hta]

theorem broadcastToSameKeyBody_KeyHash (c : ClientId) (b : Frame) (h : Hub) (a : ClientId)
    (h1 : Hub) (hs : broadcastToSameKeyBody c b h a = .ok h1) (t : ClientId) :
    (h1.heap t).KeyHash = (h.heap t).KeyHash := by
  unfold broadcastToSameKeyBody at hs
  split at hs
  · cases hsc : sendOrClose h a b with
    | error e => simp [hsc] at hs
    | ok p =>
      obtain ⟨h2, r⟩ := p
      have := sendOrClose_KeyHash h a b h2 r hsc t
      cases r <;> simp [hsc] at hs <;> subst hs <;> simpa [Hub.delete] using this
  · simp at hs; subst hs; rfl

theorem broadcastToSameKeyLoop_KeyHash (c : ClientId) (b : Frame) :
    ∀ (l : List ClientId) (h h1 : Hub), broadcastToSameKeyLoop c b l h = .ok h1 →
      ∀ t, (h1.heap t).KeyHash = (h.heap t).KeyHash := by
  intro l
  induction l with
  | nil =>
    intro h h1 hs t
    simp [broadcastToSameKeyLoop] at hs
    subst hs; rfl
  | cons a l ih =>
    intro h h1 hs t
    unfold broadcastToSameKeyLoop at hs
    cases hb : broadcastToSameKeyBody c b h a with
    | error e => simp [hb] at hs
    | ok h2 =>
      simp only [hb] at hs
      rw [ih h2 h1 hs t, broadcastToSameKeyBody_KeyHash c b h a h2 hb t]

theorem broadcastToSameKey_KeyHash (marshal : Message → Option Frame) (h : Hub) (c : ClientId)
    (msg : Message) (h1 : Hub) (hs : broadcastToSameKey marshal h c msg = .ok h1)
    (t : ClientId) : (h1.heap t).KeyHash = (h.heap t).KeyHash := by
  unfold broadcastToSameKey at hs
  cases hm : marshal msg with
  | none => simp [hm] at hs; subst hs; rfl
  | some b =>
    simp only [hm] at hs
    exact broadcastToSameKeyLoop_KeyHash c b _ h h1 hs t

theorem runBroadcastLoop_KeyHash (b : Frame) :
    ∀ (l : List ClientId) (h h1 : Hub), runBroadcastLoop b l h = .ok h1 →
      ∀ t, (h1.heap t).KeyHash = (h.heap t).KeyHash := by
  intro l
  induction l with
  | nil =>
    intro h h1 hs t
    simp [runBroadcastLoop] at hs
    subst hs; rfl
  | cons a l ih =>
    intro h h1 hs t
    unfold runBroadcastLoop at hs
    cases hb : runBroadcastBody b h a with
    | error e => simp [hb] at hs
    | ok h2 =>
      simp only [hb] at hs
      rw [ih h2 h1 hs t]
      unfold runBroadcastBody at hb
      cases hsc : sendOrClose h a b with
      | error e => simp [hsc] at hb
      | ok p =>
        obtain ⟨h3, r⟩ := p
        have := sendOrClose_KeyHash h a b h3 r hsc t
        cases r <;> simp [hsc] at hb <;> subst hb <;> simpa [Hub.delete] using this

theorem runUnregister_KeyHash (h : Hub) (a : ClientId) (h1 : Hub)
    (hs : runUnregister h a = .ok h1) (t : ClientId) :
    (h1.heap t).KeyHash = (h.heap t).KeyHash := by
  unfold runUnregister at hs
  split at hs
  · cases hc : ((h.delete a).heap a).Send.close with
    | error e => simp [hc] at hs
    | ok ch =>
      simp [hc] at hs
      subst hs
      by_cases hta : t = a
      · subst hta; simp [Hub.setClient, Hub.delete]
      · simp [Hub.setClient, Hub.delete, Function.update, hta]
  · simp at hs; subst hs; rfl

theorem handleMessage_KeyHash (marshal : Message → Option Frame) (h : Hub) (c : ClientId)
    (msg : Message) (h1 : Hub) (hs : handleMessage marshal h c msg = .ok h1) (t : ClientId) :
    (h1.heap t).KeyHash =
      if t = c ∧ msg.Typ = "register" ∧ msg.KeyHash ≠ "" then msg.KeyHash
      else (h.heap t).KeyHash := by
  by_cases hv : ∃ text, validationFailure (h.heap c).KeyHash msg = some text
  · obtain ⟨text, hv⟩ := hv
    rw [handleMessage_invalid marshal h c msg text hv] at hs
    have hk := sendMessage_KeyHash marshal h c _ h1 hs t
    have hn : ¬ (t = c ∧ msg.Typ = "register" ∧ msg.KeyHash ≠ "") := by
      rintro ⟨_, h2, h3⟩
      simp [validationFailure, h2, h3] at hv
    rw [if_neg hn, hk]
  · by_cases h1r : msg.Typ = "register"
    · have hk : msg.KeyHash ≠ "" := by
        intro hk
        exact hv ⟨"密钥哈希不能为空", by simp [validationFailure, h1r, hk]⟩
      simp only [handleMessage, h1r, if_true, if_neg hk] at hs
      have := sendMessage_KeyHash marshal _ c _ h1 hs t
      rw [this]
      by_cases htc : t = c
      · subst htc; simp [Hub.setClient, h1r, hk]
      · simp [Hub.setClient, Function.update, htc]
    · have hn : ¬ (t = c ∧ msg.Typ = "register" ∧ msg.KeyHash ≠ "") := fun hh => h1r hh.2.1
      rw [if_neg hn]
      by_cases h3 : msg.Typ = "message"
      · have hnr : ("message" : String) ≠ "register" := by decide
        simp only [handleMessage, h3, if_neg hnr, if_true] at hs
        split at hs
        · exact sendMessage_KeyHash marshal h c _ h1 hs t
        · split at hs
          · exact sendMessage_KeyHash marshal h c _ h1 hs t
          · exact broadcastToSameKey_KeyHash marshal h c _ h1 hs t
      · by_cases h6 : msg.Typ = "copy"
        · have hnr : ("copy" : String) ≠ "register" := by decide
          have hnm : ("copy" : String) ≠ "message" := by decide
          simp only [handleMessage, h6, if_neg hnr, if_neg hnm, if_true] at hs
          split at hs
          · exact sendMessage_KeyHash marshal h c _ h1 hs t
          · split at hs
            · exact sendMessage_KeyHash marshal h c _ h1 hs t
            · split at hs
              · simp at hs
              · rename_i h2 hb
                rw [sendMessage_KeyHash marshal h2 c _ h1 hs t,
                  broadcastToSameKey_KeyHash marshal h c _ h2 hb t]
        · exact absurd ⟨"未知消息类型", by simp [validationFailure, h1r, h3, h6]⟩ hv


/-- Claim C10, amended.  The key of a connection is set by each `register` frame of that
connection that carries a non-empty key, also when a non-empty key was set before, and by
nothing else: after any run of steps that does not panic (hub register, unregister and
broadcast, and `handleMessage` of any client), the key of `c` is the key of the last
`register` frame of `c` with a non-empty key, and its key before the run when there is
none. -/
theorem keyHash_follows_last_register (marshal : Message → Option Frame) (c : ClientId)
    (steps : List Step) (h h1 : Hub) (hs : run marshal steps h = .ok h1) :
    (h1.heap c).KeyHash = keyAfter c (h.heap c).KeyHash steps := by
  induction steps generalizing h with
  | nil =>
    simp [run] at hs
    subst hs; rfl
  | cons st rest ih =>
    unfold run at hs
    cases hst : step marshal h st with
    | error e => simp [hst] at hs
    | ok h2 =>
      simp only [hst] at hs
      rw [ih h2 hs]
      cases st with
      | register a =>
        simp [step, runRegister] at hst
        subst hst
        rfl
      | unregister a =>
        simp only [step] at hst
        rw [runUnregister_KeyHash _ a h2 hst c]
        rfl
      | broadcast b =>
        simp only [step, runBroadcast] at hst
        rw [runBroadcastLoop_KeyHash b _ h h2 hst c]
        rfl
      | handleMessage a msg =>
        simp only [step] at hst
        rw [handleMessage_KeyHash marshal h a msg h2 hst c]
        by_cases hca : c = a
        · subst hca; simp [keyAfter]
        · have : ¬ a = c := fun hh => hca hh.symm
          simp [keyAfter, hca, this]

/-- Witness of claim C10 (amended): client `0` registers under `a` and then under `b`. -/
theorem keyHash_follows_last_register_witness :
    ∃ h1, run (jsonMarshal sampleEnc)
        (registerSteps ++ [.handleMessage 0 { Typ := "register", KeyHash := "b" }]) Hub.init
        = .ok h1 ∧ (h1.heap 0).KeyHash = "b" := by
  have hs : run (jsonMarshal sampleEnc)
      (registerSteps ++ [.handleMessage 0 { Typ := "register", KeyHash := "b" }]) Hub.init
      = .ok (hubAfter (jsonMarshal sampleEnc)
          (registerSteps ++ [.handleMessage 0 { Typ := "register", KeyHash := "b" }])) := by
    rfl
  exact ⟨_, hs,
    (keyHash_follows_last_register (jsonMarshal sampleEnc) 0 _ Hub.init _ hs).trans
      (by decide)⟩

/-- Counterexample to claim C10 as stated.  Client `0` has registered under the non-empty
key `a`; a later `register` frame carrying key `b` changes its key to `b`. -/
theorem keyHash_changed_by_second_register :
    run (jsonMarshal sampleEnc) registerSteps Hub.init = .ok registeredHub ∧
    (registeredHub.heap 0).KeyHash = "a" ∧
    (∃ h1, handleMessage (jsonMarshal sampleEnc) registeredHub 0
        { Typ := "register", KeyHash := "b" } = .ok h1 ∧ (h1.heap 0).KeyHash = "b") ∧
    ¬ ∀ h1, handleMessage (jsonMarshal sampleEnc) registeredHub 0
        { Typ := "register", KeyHash := "b" } = .ok h1 →
      (h1.heap 0).KeyHash = (registeredHub.heap 0).KeyHash := by
  have hs : handleMessage (jsonMarshal sampleEnc) registeredHub 0
      { Typ := "register", KeyHash := "b" }
      = .ok (hubAfter (jsonMarshal sampleEnc)
          (registerSteps ++ [.handleMessage 0 { Typ := "register", KeyHash := "b" }])) := by
    rfl
  refine ⟨rfl, by decide, ⟨_, hs, by decide⟩, ?_⟩
  intro hall
  have := hall _ hs
  revert this
  decide

/-- Claim C6, evaluated on the failing run `doubleCloseSteps`.  After 256 unanswered error
replies the outbox of client `0` is full; on the next invalid frame `sendMessage` closes
it and sends an unregister request, leaving `0` in the live set; when `Hub.run` receives
the request it finds `0` live and closes the outbox a second time, which panics. -/
theorem outbox_closed_twice :
    (∃ h1, run (jsonMarshal sampleEnc) (fillSteps ++ [.handleMessage 0 pingMsg]) Hub.init
        = .ok h1 ∧
      0 ∈ h1.clients ∧ (h1.heap 0).Send.closed = true ∧ h1.unregister = [0] ∧
      runUnregister h1 0 = .error .closeOfClosedChannel) ∧
    run (jsonMarshal sampleEnc) doubleCloseSteps Hub.init = .error .closeOfClosedChannel := by
  have hs : run (jsonMarshal sampleEnc) (fillSteps ++ [.handleMessage 0 pingMsg]) Hub.init
      = .ok (hubAfter (jsonMarshal sampleEnc) (fillSteps ++ [.handleMessage 0 pingMsg])) := by
    rfl
  have hu : runUnregister
      (hubAfter (jsonMarshal sampleEnc) (fillSteps ++ [.handleMessage 0 pingMsg])) 0
      = .error .closeOfClosedChannel := by
    rfl
  have hall : run (jsonMarshal sampleEnc) doubleCloseSteps Hub.init
      = .error .closeOfClosedChannel := by
    rfl
  exact ⟨⟨_, hs, by decide, by decide, by decide, hu⟩, hall⟩


/-- Counterexample to claim C4 as stated.  After `closedTargetSteps` client `0` is live,
has the key of client `1`, and its outbox holds its full capacity of 256 entries, but
the outbox has already been closed by the `sendMessage` of client `0` itself.  A
broadcast by client `1` does not evict client `0`: the send on the closed channel panics,
so there is no hub in which client `0` has left the live set. -/
theorem broadcastToSameKey_closed_target_panics :
    run (jsonMarshal sampleEnc) closedTargetSteps Hub.init
      = .ok (hubAfter (jsonMarshal sampleEnc) closedTargetSteps) ∧
    0 ∈ (hubAfter (jsonMarshal sampleEnc) closedTargetSteps).clients ∧
    1 ∈ (hubAfter (jsonMarshal sampleEnc) closedTargetSteps).clients ∧
    ((hubAfter (jsonMarshal sampleEnc) closedTargetSteps).heap 0).KeyHash =
      ((hubAfter (jsonMarshal sampleEnc) closedTargetSteps).heap 1).KeyHash ∧
    ((hubAfter (jsonMarshal sampleEnc) closedTargetSteps).heap 0).Send.buf.length = 256 ∧
    ((hubAfter (jsonMarshal sampleEnc) closedTargetSteps).heap 0).Send.closed = true ∧
    broadcastToSameKey (jsonMarshal sampleEnc)
        (hubAfter (jsonMarshal sampleEnc) closedTargetSteps) 1
        { Typ := "message", EncryptedMessage := "X" } = .error .sendOnClosedChannel ∧
    ¬ ∃ h1, broadcastToSameKey (jsonMarshal sampleEnc)
        (hubAfter (jsonMarshal sampleEnc) closedTargetSteps) 1
        { Typ := "message", EncryptedMessage := "X" } = .ok h1 ∧
      0 ∉ h1.clients ∧ 1 ∈ h1.clients := by
  have hs : run (jsonMarshal sampleEnc) closedTargetSteps Hub.init
      = .ok (hubAfter (jsonMarshal sampleEnc) closedTargetSteps) := by
    rfl
  have hp : broadcastToSameKey (jsonMarshal sampleEnc)
      (hubAfter (jsonMarshal sampleEnc) closedTargetSteps) 1
      { Typ := "message", EncryptedMessage := "X" } = .error .sendOnClosedChannel := by
    rfl
  refine ⟨hs, by decide, by decide, by decide, by decide, by decide, hp, ?_⟩
  rintro ⟨h1, hok, _⟩
  rw [hp] at hok
  cases hok

theorem runUnregister_absent (h : Hub) (c : ClientId) (hc : c ∉ h.clients) :
    runUnregister h c = .ok h := by
  simp [runUnregister, hc]

theorem runUnregister_removes (h h1 : Hub) (c : ClientId)
    (hs : runUnregister h c = .ok h1) : c ∉ h1.clients := by
  unfold runUnregister at hs
  split at hs
  · cases hc : ((h.delete c).heap c).Send.close with
    | error e => simp [hc] at hs
    | ok ch =>
      simp [hc] at hs
      subst hs
      simp [Hub.setClient, Hub.delete]
  · rename_i hn
    simp at hs
    subst hs
    exact hn

end Backend

namespace CopyBack

/-! ### Lemmas on the secondary variant -/

theorem copyBack_hub_ext {h k : Hub} (h1 : h.clients = k.clients)
    (h2 : h.keyClients = k.keyClients) (h3 : h.broadcast = k.broadcast)
    (h4 : h.heap = k.heap) : h = k := by
  cases h; cases k; simp_all

theorem removeFromKeyClients_clients (h : Hub) (c : ClientId) :
    (removeFromKeyClients h c).clients = h.clients := by
  unfold removeFromKeyClients
  simp only
  split <;> split <;> rfl

theorem copyBack_runUnregister_absent (h : Hub) (c : ClientId) (hc : c ∉ h.clients) :
    runUnregister h c = .ok h := by
  simp [runUnregister, hc]

theorem copyBack_runUnregister_removes (h h1 : Hub) (c : ClientId)
    (hs : runUnregister h c = .ok h1) : c ∉ h1.clients := by
  unfold runUnregister at hs
  split at hs
  · cases hc : (h.heap c).Send.close with
    | error e => simp [hc] at hs
    | ok ch =>
      simp only [hc] at hs
      split at hs
      · simp at hs
        subst hs
        rw [removeFromKeyClients_clients]
        simp [Hub.setClient, Hub.delete]
      · simp at hs
        subst hs
        simp [Hub.setClient, Hub.delete]
  · rename_i hn
    simp at hs
    subst hs
    exact hn

theorem runBroadcastBody_room (b : Frame) (h : Hub) (a : ClientId)
    (hr : (h.heap a).Send.HasRoom) :
    runBroadcastBody b h a =
      .ok (h.setClient a { h.heap a with
        Send := { (h.heap a).Send with buf := (h.heap a).Send.buf ++ [b] } }) := by
  simp [runBroadcastBody, Chan.trySend, hr.1, hr.2]

theorem runBroadcastLoop_room (b : Frame) :
    ∀ (l : List ClientId) (h : Hub),
      (∀ t ∈ l, (h.heap t).Send.closed = false ∧
        (h.heap t).Send.buf.length + l.count t ≤ sendCap) →
      runBroadcastLoop b l h = .ok (deliverAll b l h) := by
  intro l
  induction l with
  | nil =>
    intro h _
    simp [runBroadcastLoop, deliverAll]
  | cons a l ih =>
    intro h hroom
    have ha := hroom a (List.mem_cons_self a l)
    have hca : 0 < (a :: l).count a := List.count_pos_iff.mpr (List.mem_cons_self a l)
    have hr : (h.heap a).Send.HasRoom := ⟨ha.1, by omega⟩
    unfold runBroadcastLoop
    rw [runBroadcastBody_room b h a hr]
    show runBroadcastLoop b l _ = _
    rw [ih]
    · congr 1
      apply copyBack_hub_ext
      · rfl
      · rfl
      · rfl
      · funext t
        by_cases hta : t = a
        · subst hta
          simp [deliverAll, Hub.setClient, List.replicate_succ]
        · have : ¬ a = t := fun hh => hta hh.symm
          simp [deliverAll, Hub.setClient, Function.update, hta, List.count_cons, this]
    · intro t ht
      have h2 := hroom t (List.mem_cons_of_mem a ht)
      by_cases hta : t = a
      · subst hta
        simp [Hub.setClient, List.count_cons] at h2 ⊢
        exact ⟨h2.1, by omega⟩
      · have : ¬ a = t := fun hh => hta hh.symm
        simp [Hub.setClient, Function.update, hta, List.count_cons, this] at h2 ⊢
        exact h2

end CopyBack


/-- Claim C5.  In both variants the unregister case of `Hub.run` is idempotent: applying
it twice to a client gives the same result as applying it once; whenever it returns, the
client is no longer in the live set and a second application returns the very same hub
(so it closes nothing); and applied to a client that is absent from the live set it
returns the hub unchanged. -/
theorem unregister_idempotent (hb : Backend.Hub) (hc : CopyBack.Hub) (c : ClientId) :
    ((Backend.runUnregister hb c).bind (fun h1 => Backend.runUnregister h1 c)
        = Backend.runUnregister hb c ∧
      (∀ h1, Backend.runUnregister hb c = .ok h1 →
        c ∉ h1.clients ∧ Backend.runUnregister h1 c = .ok h1) ∧
      (c ∉ hb.clients → Backend.runUnregister hb c = .ok hb)) ∧
    ((CopyBack.runUnregister hc c).bind (fun h1 => CopyBack.runUnregister h1 c)
        = CopyBack.runUnregister hc c ∧
      (∀ h1, CopyBack.runUnregister hc c = .ok h1 →
        c ∉ h1.clients ∧ CopyBack.runUnregister h1 c = .ok h1) ∧
      (c ∉ hc.clients → CopyBack.runUnregister hc c = .ok hc)) := by
  refine ⟨⟨?_, ?_, Backend.runUnregister_absent hb c⟩,
    ⟨?_, ?_, CopyBack.copyBack_runUnregister_absent hc c⟩⟩
  · cases hs : Backend.runUnregister hb c with
    | error e => rfl
    | ok h1 =>
      show Backend.runUnregister h1 c = .ok h1
      exact Backend.runUnregister_absent h1 c (Backend.runUnregister_removes hb h1 c hs)
  · intro h1 hs
    exact ⟨Backend.runUnregister_removes hb h1 c hs,
      Backend.runUnregister_absent h1 c (Backend.runUnregister_removes hb h1 c hs)⟩
  · cases hs : CopyBack.runUnregister hc c with
    | error e => rfl
    | ok h1 =>
      show CopyBack.runUnregister h1 c = .ok h1
      exact CopyBack.copyBack_runUnregister_absent h1 c (CopyBack.copyBack_runUnregister_removes hc h1 c hs)
  · intro h1 hs
    exact ⟨CopyBack.copyBack_runUnregister_removes hc h1 c hs,
      CopyBack.copyBack_runUnregister_absent h1 c (CopyBack.copyBack_runUnregister_removes hc h1 c hs)⟩

/-- Witness of claim C5: client `1` of `Backend.sampleHub` and client `0` of
`CopyBack.joinedHub` are live, the first unregister returns, and the second one returns
the same hub. -/
theorem unregister_idempotent_witness :
    (∃ h1, Backend.runUnregister Backend.sampleHub 1 = .ok h1 ∧ 1 ∉ h1.clients ∧
      (h1.heap 1).Send.closed = true ∧ Backend.runUnregister h1 1 = .ok h1) ∧
    (∃ h1, CopyBack.runUnregister CopyBack.joinedHub 0 = .ok h1 ∧ 0 ∉ h1.clients ∧
      (h1.heap 0).Send.closed = true ∧ h1.keyClients "a" = none ∧
      CopyBack.runUnregister h1 0 = .ok h1) := by
  have hb : Backend.runUnregister Backend.sampleHub 1 =
      .ok (Backend.resultOr (Backend.runUnregister Backend.sampleHub 1) Backend.sampleHub) := by
    rfl
  have hc : CopyBack.runUnregister CopyBack.joinedHub 0 =
      .ok (CopyBack.resultOr (CopyBack.runUnregister CopyBack.joinedHub 0)
        CopyBack.joinedHub) := by
    rfl
  have hb2 := (unregister_idempotent Backend.sampleHub CopyBack.joinedHub 1).1.2.1 _ hb
  have hc2 := (unregister_idempotent Backend.sampleHub CopyBack.joinedHub 0).2.2.1 _ hc
  exact ⟨⟨_, hb, hb2.1, by decide, hb2.2⟩, ⟨_, hc, hc2.1, by decide, by decide, hc2.2⟩⟩


namespace CopyBack

/-- Claim C8, evaluated on two failing runs.  In `reRegisterSteps` client `0` registers
under `a` and again under `b`; the unregister case then removes it from the live set and
from group `b` only, so it is still in group `a`.  In `floodSteps 257` client `0`, alone
in group `a`, receives each of its own messages; the 257th broadcast finds its outbox
full, closes it and deletes it from the live set, but not from group `a`.  In both hubs a
grouped client is not live, and in the second one the next broadcast to the group panics
on the closed outbox. -/
theorem grouped_client_not_live :
    (∃ h1, run reRegisterSteps newHub = .ok h1 ∧
      0 ∈ h1.group "a" ∧ 0 ∉ h1.clients ∧ ¬ GroupedAreLive h1) ∧
    (∃ h2, run (floodSteps 257) newHub = .ok h2 ∧
      0 ∈ h2.group "a" ∧ 0 ∉ h2.clients ∧ ¬ GroupedAreLive h2 ∧
      runBroadcast h2 relayMsg = .error .sendOnClosedChannel) := by
  have h1 : run reRegisterSteps newHub = .ok (hubAfter reRegisterSteps) := by rfl
  have h2 : run (floodSteps 257) newHub = .ok (hubAfter (floodSteps 257)) := by rfl
  have m1 : 0 ∈ (hubAfter reRegisterSteps).group "a" := by decide
  have n1 : 0 ∉ (hubAfter reRegisterSteps).clients := by decide
  have m2 : 0 ∈ (hubAfter (floodSteps 257)).group "a" := by decide
  have n2 : 0 ∉ (hubAfter (floodSteps 257)).clients := by decide
  have p2 : runBroadcast (hubAfter (floodSteps 257)) relayMsg
      = .error .sendOnClosedChannel := by rfl
  exact ⟨⟨_, h1, m1, n1, fun hinv => n1 (hinv "a" 0 m1)⟩,
    ⟨_, h2, m2, n2, fun hinv => n2 (hinv "a" 0 m2), p2⟩⟩

/-- Claim C9, amended.  Let `message` be of type `message` with a non-empty key whose
group is `g`, let `A` be in `g`, and let every member of `g` have an open outbox with room
for as many frames as it occurs in `g`.  Then the broadcast case of `Hub.run` returns and
has enqueued the relayed frame at the tail of the outbox of every member of `g`, once for
each occurrence, the sender `A` included; no other outbox changes, and the live set, the
group index and the pending messages are unchanged. -/
theorem runBroadcast_reaches_group (h : Hub) (message : Message) (g : List ClientId)
    (A : ClientId) (hty : message.Typ = "message") (hk : message.KeyHash ≠ "")
    (hg : h.keyClients message.KeyHash = some g) (hA : A ∈ g)
    (hroom : ∀ t ∈ g, (h.heap t).Send.closed = false ∧
      (h.heap t).Send.buf.length + g.count t ≤ sendCap) :
    ∃ h1, runBroadcast h message = .ok h1 ∧
      h1.clients = h.clients ∧ h1.keyClients = h.keyClients ∧ h1.broadcast = h.broadcast ∧
      (∀ t, h1.heap t = { h.heap t with
        Send := { (h.heap t).Send with
          buf := (h.heap t).Send.buf ++
            List.replicate (g.count t) (relayFrame message.EncryptedMessage) } }) ∧
      0 < g.count A ∧
      (∀ t, t ∉ g → h1.heap t = h.heap t) := by
  refine ⟨deliverAll (relayFrame message.EncryptedMessage) g h, ?_, rfl, rfl, rfl,
    fun t => rfl, List.count_pos_iff.mpr hA, ?_⟩
  · simp only [runBroadcast, hty, hk, hg, ne_eq, not_false_eq_true, and_self, if_true]
    exact runBroadcastLoop_room _ g h hroom
  · intro t ht
    simp [deliverAll, List.count_eq_zero_of_not_mem ht]

/-- Witness of claim C9 (amended): client `0` of `pairHub` sends a message to group `a`,
which holds clients `0` and `1`; both outboxes receive the frame. -/
theorem runBroadcast_reaches_group_witness :
    relayMsg.Typ = "message" ∧ relayMsg.KeyHash ≠ "" ∧
    pairHub.keyClients relayMsg.KeyHash = some [0, 1] ∧ 0 ∈ [0, 1] ∧
    (∀ t ∈ [0, 1], (pairHub.heap t).Send.closed = false ∧
      (pairHub.heap t).Send.buf.length + [0, 1].count t ≤ sendCap) ∧
    ∃ h1, runBroadcast pairHub relayMsg = .ok h1 ∧
      (h1.heap 0).Send.buf = [relayFrame "X"] ∧ (h1.heap 1).Send.buf = [relayFrame "X"] :=
  ⟨rfl, by decide, rfl, by decide, by decide,
    let ⟨h1, hs, _, _, _, hh, _⟩ :=
      runBroadcast_reaches_group pairHub relayMsg [0, 1] 0 rfl (by decide) rfl (by decide)
        (by decide)
    ⟨h1, hs, by rw [hh 0]; rfl, by rw [hh 1]; rfl⟩⟩

/-- Counterexample to claim C9 as stated.  Client `0` is registered under key `a` and
alone in group `a`; when it sends a `message` frame for key `a`, the broadcast case
enqueues the relayed frame on the outbox of `0` itself. -/
theorem runBroadcast_reaches_sender :
    run joinSteps newHub = .ok joinedHub ∧
    (joinedHub.heap 0).KeyHash = "a" ∧ joinedHub.keyClients "a" = some [0] ∧
    (joinedHub.heap 0).Send.buf = [] ∧
    (∃ h1, runBroadcast (readPump joinedHub 0 relayMsg) relayMsg = .ok h1 ∧
      (h1.heap 0).Send.buf = [relayFrame "X"]) ∧
    ¬ ∀ h1, runBroadcast (readPump joinedHub 0 relayMsg) relayMsg = .ok h1 →
      (h1.heap 0).Send.buf = (joinedHub.heap 0).Send.buf := by
  have hs : runBroadcast (readPump joinedHub 0 relayMsg) relayMsg
      = .ok (resultOr (runBroadcast (readPump joinedHub 0 relayMsg) relayMsg) joinedHub) := by
    rfl
  refine ⟨rfl, by decide, rfl, by decide, ⟨_, hs, by decide⟩, ?_⟩
  intro hall
  have := hall _ hs
  revert this
  decide

end CopyBack

end WebTools
